import Mathlib

/-!
Verification development for the equi-join hash-table builder of the
mapd-core-stream repository (JoinHashTable) and the CartesianProductIterator
of QueryEngine/GpuMemUtils.h.

The repository sources contain the JoinHashTable *header* (declarations,
the cache-key comparator, the error codes and `getJoinHashBuffer`) but not
the translation unit with the bodies of `reify`, `initHashTableOnCpu`,
`initOneToManyHashTableOnCpu`, `needOneToManyHash` and the cache accessors.
Definitions whose doc comment starts with "Modelled from the spec:" embed
those missing bodies following the specification's wording; all other
definitions are translated directly from the source files.
-/

set_option maxHeartbeats 1000000

/-- Error code from JoinHashTable.h: `static const int ERR_COLUMN_NOT_UNIQUE{-5}`,
the reify error that signals a duplicate inner key during a One-to-One build. -/
def ERR_COLUMN_NOT_UNIQUE : Int := -5

/-- Modelled from the spec: the kind tag of an expression range (the header uses
`ExpressionRangeType::Integer` in the JoinHashTable constructor; ExpressionRange.h
itself is not among the sources).  Only the integer kind is accepted by this
join path. -/
inductive ExpressionRangeType
  | Invalid
  | Integer
  | FloatingPoint
  | DoublePrecision
deriving DecidableEq

/-- Modelled from the spec: a ValueRange — inclusive [min, max] over the integer
domain of the join key plus a null-presence flag, tagged with its kind. -/
structure ExpressionRange where
  rangeType : ExpressionRangeType
  intMin : Int
  intMax : Int
  hasNulls : Bool
deriving DecidableEq

/-- Modelled from the spec: the identity of a join column (owning table id,
column id, range-table index); `Analyzer::ColumnVar` equality compares these
identity fields. -/
structure ColumnVar where
  table_id : Int
  column_id : Int
  rte_idx : Int
deriving DecidableEq

/-- Modelled from the spec: the comparison operator of the join condition
(plain equality or bitwise equality; other operators do not reach this path). -/
inductive SQLOps
  | kEQ
  | kBW_EQ
  | kNE
deriving DecidableEq

/-- ChunkKey, a vector of ints identifying the physical chunk(s) backing the
inner column (`typedef std::vector<int> ChunkKey`). -/
abbrev ChunkKey := List Int

/-- The cache-key fingerprint from JoinHashTable.h: value range, inner and
outer column identities, row count, chunk identity and comparison operator. -/
structure JoinHashTableCacheKey where
  col_range : ExpressionRange
  inner_col : ColumnVar
  outer_col : ColumnVar
  num_elements : Nat
  chunk_key : ChunkKey
  optype : SQLOps
deriving DecidableEq

/-- Translated from `JoinHashTableCacheKey::operator==` in JoinHashTable.h:
the conjunction of the comparisons of every field. -/
def cacheKeyEq (a b : JoinHashTableCacheKey) : Bool :=
  decide (a.col_range = b.col_range) && decide (a.inner_col = b.inner_col) &&
  decide (a.outer_col = b.outer_col) && decide (a.num_elements = b.num_elements) &&
  decide (a.chunk_key = b.chunk_key) && decide (a.optype = b.optype)

/-- Modelled from the spec: the lookup half of the hash-table cache
(`initHashTableOnCpuFromCache`, body not among the sources) — scan the
append-only entry list for a fingerprint that compares equal and return its
shared payload. -/
def cacheLookup {P : Type} (cache : List (JoinHashTableCacheKey × P))
    (k : JoinHashTableCacheKey) : Option P :=
  (cache.find? (fun e => cacheKeyEq e.1 k)).map Prod.snd

/-- Modelled from the spec: the insert half of the hash-table cache
(`putHashTableOnCpuToCache`, body not among the sources) — idempotent
insert-if-absent: if an entry with an equal fingerprint already exists the
insert is a no-op and the earlier payload wins; the returned payload is the
one the caller must use afterwards. -/
def cacheInsert {P : Type} (cache : List (JoinHashTableCacheKey × P))
    (k : JoinHashTableCacheKey) (p : P) : List (JoinHashTableCacheKey × P) × P :=
  match cache.find? (fun e => cacheKeyEq e.1 k) with
  | some e => (cache, e.2)
  | none => (cache ++ [(k, p)], p)

/-- Device type selector of `getJoinHashBuffer` (ExecutorDeviceType). -/
inductive ExecutorDeviceType
  | CPU
  | GPU
deriving DecidableEq

/-- The CPU-side state read by `getJoinHashBuffer`: the optional CPU hash-table
buffer, modelled as its base address (the address of element 0 of the vector)
together with its contents. -/
structure JoinHashTableState where
  cpu_hash_table_buff : Option (Nat × List Int)

/-- Translated from `JoinHashTable::getJoinHashBuffer` in JoinHashTable.h
(the non-CUDA branch): a CPU request with no CPU buffer built returns 0;
a CPU request with a buffer returns the address of its first element; any
other device type fails the `CHECK` (modelled as `none`). -/
def getJoinHashBuffer (st : JoinHashTableState) (device_type : ExecutorDeviceType) :
    Option Int :=
  if device_type = ExecutorDeviceType.CPU ∧ st.cpu_hash_table_buff = none then
    some 0
  else
    match device_type, st.cpu_hash_table_buff with
    | ExecutorDeviceType.CPU, some (addr, _) => some (Int.ofNat addr)
    | _, _ => none

/-- Decidable in-range test for one (possibly null) key value: a null key is
unconstrained, a non-null key must lie in the inclusive range [minVal, maxVal]. -/
def keyInRange (minVal maxVal : Int) : Option Int → Bool
  | none => true
  | some v => decide (minVal ≤ v) && decide (v ≤ maxVal)

/-- The bucket of row `i`: its key value shifted by the range minimum
(`value − min`), or `none` for a null key (skipped by the One-to-One pass). -/
def rowBucket (rows : List (Option Int)) (minVal : Int) (i : Nat) : Option Nat :=
  (rows.getD i none).map (fun v => (v - minVal).toNat)

/-- Modelled from the spec: the population loop of the missing
`initHashTableOnCpu` body.  The bucket array starts pre-filled with the
invalid sentinel; each row of the processing order (skipping nulls) writes its
row index at bucket `value − min`; if the target bucket already holds a
row's index (is not the sentinel), a duplicate key has been detected and the
attempt aborts with `ERR_COLUMN_NOT_UNIQUE`. -/
def fillOneToOne (rows : List (Option Int)) (minVal invalid : Int) :
    List Nat → List Int → Int × List Int
  | [], table => (0, table)
  | i :: order, table =>
    match rows.getD i none with
    | none => fillOneToOne rows minVal invalid order table
    | some v =>
      if table.getD ((v - minVal).toNat) invalid ≠ invalid then
        (ERR_COLUMN_NOT_UNIQUE, table)
      else
        fillOneToOne rows minVal invalid order (table.set ((v - minVal).toNat) (Int.ofNat i))

/-- Modelled from the spec: `JoinHashTable::initHashTableOnCpu` (body not among
the sources) — allocate `hash_entry_count` buckets pre-filled with the invalid
sentinel and run the One-to-One population loop over the rows in order;
returns the error code (0 for success) and the bucket array. -/
def initHashTableOnCpu (rows : List (Option Int)) (minVal : Int)
    (hash_entry_count : Nat) (invalid : Int) : Int × List Int :=
  fillOneToOne rows minVal invalid (List.range rows.length)
    (List.replicate hash_entry_count invalid)

/-- Modelled from the spec: `JoinHashTable::needOneToManyHash` (body not among
the sources) — the per-device error list demands the One-to-Many fallback
exactly when it contains `ERR_COLUMN_NOT_UNIQUE`. -/
def needOneToManyHash (errors : List Int) : Bool :=
  errors.contains ERR_COLUMN_NOT_UNIQUE

/-- The rows of `order` that fall into bucket `b`, in processing order. -/
def bucketMatches (rows : List (Option Int)) (minVal : Int) (b : Nat)
    (order : List Nat) : List Nat :=
  order.filter (fun i => decide (rowBucket rows minVal i = some b))

/-- Modelled from the spec: pass 1 of the missing
`initOneToManyHashTableOnCpu` body — count the rows per bucket. -/
def countsOf (rows : List (Option Int)) (minVal : Int) (order : List Nat)
    (b : Nat) : Nat :=
  (bucketMatches rows minVal b order).length

/-- Modelled from the spec: pass 2, first half — prefix-sum the per-bucket
counts into per-bucket offsets. -/
def offsetsOf (counts : Nat → Nat) : Nat → Nat
  | 0 => 0
  | b + 1 => offsetsOf counts b + counts b

/-- The number of non-null keys among the processed rows; the flat payload
array has exactly this length. -/
def numNonNullKeys (rows : List (Option Int)) (minVal : Int)
    (order : List Nat) : Nat :=
  (order.filter (fun i => (rowBucket rows minVal i).isSome)).length

/-- Modelled from the spec: one step of pass 2, second half — scatter the
row's index into the offset-addressed slot of the payload array and advance
that bucket's write cursor; null rows are skipped. -/
def scatterStep (rows : List (Option Int)) (minVal : Int) (offsets : Nat → Nat)
    (st : List (Option Nat) × (Nat → Nat)) (i : Nat) :
    List (Option Nat) × (Nat → Nat) :=
  match rowBucket rows minVal i with
  | none => st
  | some b =>
    (st.1.set (offsets b + st.2 b) (some i), Function.update st.2 b (st.2 b + 1))

/-- Modelled from the spec: the scatter pass over the whole processing order. -/
def scatterPass (rows : List (Option Int)) (minVal : Int) (offsets : Nat → Nat)
    (order : List Nat) (st : List (Option Nat) × (Nat → Nat)) :
    List (Option Nat) × (Nat → Nat) :=
  order.foldl (scatterStep rows minVal offsets) st

/-- The One-to-Many layout: per-bucket counts, per-bucket prefix-sum offsets
and the flat row-index payload array. -/
structure OneToManyTable where
  counts : Nat → Nat
  offsets : Nat → Nat
  payload : List (Option Nat)

/-- Modelled from the spec: the missing `initOneToManyHashTableOnCpu` body,
parameterized by the processing order of the source rows (the sequential CPU
build uses the natural row order; a parallel build corresponds to another
permutation).  Pass 1 counts rows per bucket, pass 2 prefix-sums the counts
into offsets and scatters each row's index into the offset-addressed payload
slot, advancing a per-bucket write cursor. -/
def initOneToManyOrdered (rows : List (Option Int)) (minVal : Int)
    (hash_entry_count : Nat) (order : List Nat) : OneToManyTable :=
  let counts := countsOf rows minVal order
  let offsets := offsetsOf counts
  let payload0 : List (Option Nat) :=
    List.replicate (numNonNullKeys rows minVal order) none
  { counts := counts
    offsets := offsets
    payload := (scatterPass rows minVal offsets order (payload0, fun _ => 0)).1 }

/-- Modelled from the spec: `JoinHashTable::initOneToManyHashTableOnCpu`
(body not among the sources) — the sequential build, processing the source
rows in their natural order. -/
def initOneToManyHashTableOnCpu (rows : List (Option Int)) (minVal : Int)
    (hash_entry_count : Nat) : OneToManyTable :=
  initOneToManyOrdered rows minVal hash_entry_count (List.range rows.length)

/-- The payload slice `[offset, offset + count)` of one bucket. -/
def tableSlice (t : OneToManyTable) (b : Nat) : List (Option Nat) :=
  (t.payload.drop (t.offsets b)).take (t.counts b)

/-- A finished hash-table payload: either the One-to-One bucket array or the
One-to-Many three-array layout. -/
inductive HashTablePayload
  | oneToOne (table : List Int)
  | oneToMany (t : OneToManyTable)

/-- Modelled from the spec: the CPU half of the missing `reify` body — attempt
the One-to-One build; if the per-device error list demands it
(`needOneToManyHash`), discard the attempt and restart in the One-to-Many
discipline instead of erroring. -/
def reifyOnCpu (rows : List (Option Int)) (minVal : Int)
    (hash_entry_count : Nat) (invalid : Int) : HashTablePayload :=
  let r := initHashTableOnCpu rows minVal hash_entry_count invalid
  if needOneToManyHash [r.1] then
    HashTablePayload.oneToMany (initOneToManyHashTableOnCpu rows minVal hash_entry_count)
  else
    HashTablePayload.oneToOne r.2

/-- Modelled from the spec: bucket count of the table, `(max − min + 1)`
(unsharded path; the spec leaves the shard scaling formula abstract). -/
def hashEntryCount (minVal maxVal : Int) : Nat :=
  (maxVal - minVal + 1).toNat

/-- The hard cap on the entry count: 2^31 − 1 total entries. -/
def hashEntryCountCap : Nat := 2 ^ 31 - 1

/-- The failure outcomes of a build attempt: `TooManyHashEntries` (the entry
cap is exceeded) and `HashJoinFail` (this join path is not applicable and the
caller must fall back to another join strategy). -/
inductive HashBuildError
  | tooManyHashEntries
  | hashJoinFail
deriving DecidableEq

/-- Modelled from the spec: the entry-count gate of the missing `reify` body —
compute the entry count from the validated range and throw
`TooManyHashEntries` when it exceeds the 2^31 − 1 cap, producing no partial
result; otherwise build the table. -/
def buildJoinHashTable (rows : List (Option Int)) (minVal maxVal invalid : Int) :
    Except HashBuildError HashTablePayload :=
  let entry_count := hashEntryCount minVal maxVal
  if hashEntryCountCap < entry_count then
    Except.error HashBuildError.tooManyHashEntries
  else
    Except.ok (reifyOnCpu rows minVal entry_count invalid)

/-- Modelled from the spec: the range validation of the missing
`JoinHashTable::getInstance` body — a value range that is not of the integer
kind is rejected immediately with `HashJoinFail` (so the caller falls back to
a different join strategy) and no table construction is begun. -/
def getInstance (col_range : ExpressionRange) (rows : List (Option Int))
    (invalid : Int) : Except HashBuildError HashTablePayload :=
  if col_range.rangeType ≠ ExpressionRangeType.Integer then
    Except.error HashBuildError.hashJoinFail
  else
    buildJoinHashTable rows col_range.intMin col_range.intMax invalid

/-- `std::numeric_limits<std::size_t>::max()`, the end-position sentinel of
the CartesianProductIterator. -/
def SIZE_T_MAX : Nat := 2 ^ 64 - 1

/-- Translated from the inner `for (j = size_; j > 0; --j)` odometer loop of
`CartesianProductIterator`'s constructor: decrement `steps[j-1]`; when it hits
zero reset it to `input_size[j-1]` and carry to the next position, otherwise
advance `index_[j-1]` modulo `input_size[j-1]` and stop. -/
def cpiAdvance (input_size : List Nat) :
    Nat → List Nat × List Nat → List Nat × List Nat
  | 0, st => st
  | j + 1, (idx, steps) =>
    if steps.getD j 0 - 1 = 0 then
      cpiAdvance input_size j (idx, steps.set j (input_size.getD j 0))
    else
      (idx.set j ((idx.getD j 0 + 1) % input_size.getD j 0),
       steps.set j (steps.getD j 0 - 1))

/-- Translated from the row-building inner loop of the constructor:
`row.push_back(structure[j][index_[j]])` for `j` in `[0, size_)`.  The source
indexes the *unfiltered* outer container with `j`, so the accesses are
embedded as optional lookups. -/
def cpiRow {α : Type} (outer : List (List α)) (idx : List Nat) (size : Nat) :
    List (Option α) :=
  (List.range size).map (fun j => (outer[j]?).bind (fun inner => inner[idx.getD j 0]?))

/-- Translated from the outer `for (i = 0; i != order_size_; ++i)` loop of the
constructor: emit one row per iteration, then advance the odometer. -/
def cpiBuild {α : Type} (outer : List (List α)) (input_size : List Nat)
    (size : Nat) : Nat → List Nat → List Nat → List (List (Option α))
  | 0, _, _ => []
  | n + 1, idx, steps =>
    let st := cpiAdvance input_size size (idx, steps)
    cpiRow outer idx size :: cpiBuild outer input_size size n st.1 st.2

/-- Translated from `CartesianProductIterator::increment()`: the end sentinel
is absorbing; a position at or beyond `order_size_ − 1` becomes the end
sentinel; otherwise the position advances by one. -/
def cpiIncrement (order_size ap : Nat) : Nat :=
  if ap = SIZE_T_MAX then ap
  else if order_size - 1 ≤ ap then SIZE_T_MAX
  else ap + 1

/-- The observable state produced by `CartesianProductIterator`'s constructor:
the materialized `result_` rows, `absolutePosition_`, `size_` and
`order_size_`. -/
structure CartesianProductResult (α : Type) where
  result : List (List (Option α))
  absolutePosition : Nat
  size : Nat
  order_size : Nat

/-- Translated from `CartesianProductIterator::CartesianProductIterator`:
scan the outer structure skipping inner containers of size zero (collecting
`size_`, `input_size` and `order_size_`); when the position is the end
sentinel or `size_ == 0`, generate nothing and park at the end; otherwise
generate `order_size_` rows with the odometer and advance to the wanted
position. -/
def cartesianProductIteratorInit {α : Type} (outer : List (List α)) (pos : Nat) :
    CartesianProductResult α :=
  let nonEmpty := outer.filter (fun e => decide (e.length ≠ 0))
  let size := nonEmpty.length
  let input_size := nonEmpty.map List.length
  let order_size := input_size.foldl (fun a b => a * b) 1
  if pos = SIZE_T_MAX ∨ size = 0 then
    { result := [], absolutePosition := SIZE_T_MAX, size := size, order_size := order_size }
  else
    { result := cpiBuild outer input_size size order_size (List.replicate size 0) input_size
      absolutePosition := (cpiIncrement order_size)^[pos] 0
      size := size
      order_size := order_size }

/-- The tuple count visible through `CartesianProduct`: its member iterator is
constructed at position 0 and `size()` returns `result_.size()`. -/
def cartesianProductSize {α : Type} (outer : List (List α)) : Nat :=
  (cartesianProductIteratorInit outer 0).result.length

/-- The count stated by the claim, written from its words: the product of the
sizes of only the non-empty inner containers. -/
def claimedTupleCount {α : Type} (outer : List (List α)) : Nat :=
  ((outer.filter (fun e => decide (e.length ≠ 0))).map List.length).prod

/-- A concrete cache-key fingerprint used by the witnesses. -/
def sampleCacheKey : JoinHashTableCacheKey :=
  { col_range := { rangeType := ExpressionRangeType.Integer, intMin := 0,
                   intMax := 5, hasNulls := false }
    inner_col := { table_id := 1, column_id := 2, rte_idx := 0 }
    outer_col := { table_id := 3, column_id := 4, rte_idx := 1 }
    num_elements := 10
    chunk_key := [1, 2, 3]
    optype := SQLOps.kEQ }

/-- A concrete non-integer value range used by the witnesses. -/
def sampleFloatRange : ExpressionRange :=
  { rangeType := ExpressionRangeType.FloatingPoint, intMin := 0, intMax := 0,
    hasNulls := false }

/-- A concrete integer value range used by the witnesses. -/
def sampleIntRange : ExpressionRange :=
  { rangeType := ExpressionRangeType.Integer, intMin := 10, intMax := 12,
    hasNulls := false }

/-- The inner column of the spec's concrete scenario: values `[10, 12, 10, 11]`
(with the duplicate key 10 at rows 0 and 2) over the range `[10, 12]`. -/
def sampleRows : List (Option Int) :=
  [some 10, some 12, some 10, some 11]

/-! ### Basic facts about the cache -/

theorem cacheKeyEq_refl (k : JoinHashTableCacheKey) : cacheKeyEq k k = true := by
  simp [cacheKeyEq]

theorem find?_append_of_none {α : Type} {p : α → Bool} {l1 l2 : List α}
    (h : l1.find? p = none) : (l1 ++ l2).find? p = l2.find? p := by
  simp [List.find?_append, h]

/-- Claim C6: a build attempt whose value range is not of the integer kind is
rejected immediately at range validation with the recoverable `HashJoinFail`
signal (the caller falls back to another join strategy) and no table
construction is begun; an integer range passes validation and proceeds to the
build. -/
theorem c6_range_validation (col_range : ExpressionRange)
    (rows : List (Option Int)) (invalid : Int) :
    (col_range.rangeType ≠ ExpressionRangeType.Integer →
      getInstance col_range rows invalid = Except.error HashBuildError.hashJoinFail) ∧
    (col_range.rangeType = ExpressionRangeType.Integer →
      getInstance col_range rows invalid =
        buildJoinHashTable rows col_range.intMin col_range.intMax invalid) := by
  constructor
  · intro h
    simp [getInstance, h]
  · intro h
    simp [getInstance, h]

/-- Claim C6 witness: a floating-point range is rejected with `HashJoinFail`,
while the integer range `[10, 12]` passes range validation. -/
theorem c6_witness :
    getInstance sampleFloatRange [] 0 = Except.error HashBuildError.hashJoinFail ∧
    getInstance sampleIntRange [] 0 = buildJoinHashTable [] 10 12 0 :=
  ⟨(c6_range_validation sampleFloatRange [] 0).1 (by decide),
   (c6_range_validation sampleIntRange [] 0).2 rfl⟩

/-- Claim C3: the build fails with `TooManyHashEntries` exactly when the
computed entry count exceeds the hard cap of 2^31 − 1 entries — the error
carries no partial result — and an entry count at or below the cap never
raises this error and yields the built table. -/
theorem c3_entry_cap_gate (rows : List (Option Int)) (minVal maxVal invalid : Int) :
    (buildJoinHashTable rows minVal maxVal invalid =
        Except.error HashBuildError.tooManyHashEntries ↔
      hashEntryCountCap < hashEntryCount minVal maxVal) ∧
    (hashEntryCount minVal maxVal ≤ hashEntryCountCap →
      buildJoinHashTable rows minVal maxVal invalid =
        Except.ok (reifyOnCpu rows minVal (hashEntryCount minVal maxVal) invalid)) := by
  have hb : buildJoinHashTable rows minVal maxVal invalid =
      if hashEntryCountCap < hashEntryCount minVal maxVal then
        Except.error HashBuildError.tooManyHashEntries
      else
        Except.ok (reifyOnCpu rows minVal (hashEntryCount minVal maxVal) invalid) := rfl
  constructor
  · rw [hb]
    split
    · next h => simpa using h
    · next h => exact iff_of_false (by simp) h
  · intro hle
    rw [hb, if_neg (by omega)]

/-- Claim C3 witness: the range `[0, 2^31]` exceeds the cap and fails fatally,
while the one-bucket range `[0, 0]` is below the cap and builds. -/
theorem c3_witness :
    buildJoinHashTable [] 0 (2 ^ 31) 0 = Except.error HashBuildError.tooManyHashEntries ∧
    buildJoinHashTable [] 0 0 0 =
      Except.ok (reifyOnCpu [] 0 (hashEntryCount 0 0) 0) :=
  ⟨(c3_entry_cap_gate [] 0 (2 ^ 31) 0).1.mpr (by decide),
   (c3_entry_cap_gate [] 0 0 0).2 (by decide)⟩

/-- Claim C5: two cache-key fingerprints compare equal under the hand-written
`operator==` exactly when every one of their fields (value range, inner column
identity, outer column identity, row count, chunk identity, comparison
operator) compares equal, and this comparison is the sole admission test of a
cache lookup: a returned payload always comes from an entry whose fingerprint
compares equal to the probe. -/
theorem c5_cache_key_structural_eq :
    (∀ a b : JoinHashTableCacheKey, cacheKeyEq a b = true ↔
      (a.col_range = b.col_range ∧ a.inner_col = b.inner_col ∧
       a.outer_col = b.outer_col ∧ a.num_elements = b.num_elements ∧
       a.chunk_key = b.chunk_key ∧ a.optype = b.optype)) ∧
    (∀ (P : Type) (cache : List (JoinHashTableCacheKey × P))
       (k : JoinHashTableCacheKey) (p : P),
      cacheLookup cache k = some p →
        ∃ e ∈ cache, cacheKeyEq e.1 k = true ∧ e.2 = p) := by
  constructor
  · intro a b
    simp [cacheKeyEq, and_assoc]
  · intro P cache k p hp
    rw [cacheLookup] at hp
    obtain ⟨e, he, hpe⟩ := Option.map_eq_some'.mp hp
    have hpred := List.find?_some he
    exact ⟨e, List.mem_of_find?_eq_some he, by simpa using hpred, hpe⟩

/-- Claim C5 witness: the sample fingerprint compares equal to itself and a
lookup that returns a payload got it from an entry with an equal fingerprint. -/
theorem c5_witness :
    cacheKeyEq sampleCacheKey sampleCacheKey = true ∧
    ∃ e ∈ [(sampleCacheKey, (42 : Nat))], cacheKeyEq e.1 sampleCacheKey = true ∧ e.2 = 42 :=
  ⟨(c5_cache_key_structural_eq.1 sampleCacheKey sampleCacheKey).mpr
      ⟨rfl, rfl, rfl, rfl, rfl, rfl⟩,
   c5_cache_key_structural_eq.2 Nat [(sampleCacheKey, 42)] sampleCacheKey 42 (by decide)⟩

/-- Claim C4: get-or-insert semantics of the cache.  Starting from a cache
with no entry for fingerprint `k`, a first build inserts and keeps its payload
`p1`; a second insert for an equal fingerprint (the race loser) is a no-op
whose caller receives the exact same payload `p1`, the cache is unchanged by
it, a lookup returns `p1`, and exactly one materialized payload for `k` exists. -/
theorem c4_cache_get_or_insert (P : Type) (cache : List (JoinHashTableCacheKey × P))
    (k : JoinHashTableCacheKey) (p1 p2 : P)
    (hmiss : cacheLookup cache k = none) :
    (cacheInsert cache k p1).2 = p1 ∧
    (cacheInsert (cacheInsert cache k p1).1 k p2).2 = p1 ∧
    (cacheInsert (cacheInsert cache k p1).1 k p2).1 = (cacheInsert cache k p1).1 ∧
    cacheLookup (cacheInsert (cacheInsert cache k p1).1 k p2).1 k = some p1 ∧
    ((cacheInsert (cacheInsert cache k p1).1 k p2).1.filter
        (fun e => cacheKeyEq e.1 k)).length = 1 := by
  have hfind : cache.find? (fun e => cacheKeyEq e.1 k) = none := by
    rw [cacheLookup] at hmiss
    exact Option.map_eq_none'.mp hmiss
  have h1 : cacheInsert cache k p1 = (cache ++ [(k, p1)], p1) := by
    rw [cacheInsert, hfind]
  have hfind2 : (cache ++ [(k, p1)]).find? (fun e => cacheKeyEq e.1 k) = some (k, p1) := by
    rw [find?_append_of_none hfind]
    simp [List.find?_cons, cacheKeyEq_refl]
  have h2 : cacheInsert (cache ++ [(k, p1)]) k p2 = (cache ++ [(k, p1)], p1) := by
    rw [cacheInsert, hfind2]
  refine ⟨by rw [h1], by rw [h1, h2], by rw [h1, h2], ?_, ?_⟩
  · rw [h1, h2, cacheLookup, hfind2]
    rfl
  · rw [h1, h2]
    have hnil : cache.filter (fun e => cacheKeyEq e.1 k) = [] :=
      List.filter_eq_nil_iff.mpr (List.find?_eq_none.mp hfind)
    simp [List.filter_append, hnil, cacheKeyEq_refl]

/-- Claim C4 witness: two inserts of the sample fingerprint into an empty
cache leave one entry, and both callers end up with the first payload. -/
theorem c4_witness :
    (cacheInsert ([] : List (JoinHashTableCacheKey × Nat)) sampleCacheKey 7).2 = 7 ∧
    (cacheInsert (cacheInsert ([] : List (JoinHashTableCacheKey × Nat)) sampleCacheKey 7).1
        sampleCacheKey 8).2 = 7 ∧
    (cacheInsert (cacheInsert ([] : List (JoinHashTableCacheKey × Nat)) sampleCacheKey 7).1
        sampleCacheKey 8).1 =
      (cacheInsert ([] : List (JoinHashTableCacheKey × Nat)) sampleCacheKey 7).1 ∧
    cacheLookup (cacheInsert (cacheInsert ([] : List (JoinHashTableCacheKey × Nat))
        sampleCacheKey 7).1 sampleCacheKey 8).1 sampleCacheKey = some 7 ∧
    ((cacheInsert (cacheInsert ([] : List (JoinHashTableCacheKey × Nat)) sampleCacheKey 7).1
        sampleCacheKey 8).1.filter (fun e => cacheKeyEq e.1 sampleCacheKey)).length = 1 :=
  c4_cache_get_or_insert Nat [] sampleCacheKey 7 8 rfl

/-- Claim C9: a `getJoinHashBuffer` call for the CPU device while no CPU hash
table has been built returns 0 rather than failing, and when a CPU table
exists it returns the address of the table's first element. -/
theorem c9_get_join_hash_buffer (st : JoinHashTableState) :
    (st.cpu_hash_table_buff = none →
      getJoinHashBuffer st ExecutorDeviceType.CPU = some 0) ∧
    (∀ addr data, st.cpu_hash_table_buff = some (addr, data) →
      getJoinHashBuffer st ExecutorDeviceType.CPU = some (Int.ofNat addr)) := by
  constructor
  · intro h
    simp [getJoinHashBuffer, h]
  · intro addr data h
    simp [getJoinHashBuffer, h]

/-- Claim C9 witness: with no CPU buffer the handle is 0; with a buffer based
at address 4096 the handle is 4096. -/
theorem c9_witness :
    getJoinHashBuffer { cpu_hash_table_buff := none } ExecutorDeviceType.CPU = some 0 ∧
    getJoinHashBuffer { cpu_hash_table_buff := some (4096, [1, -1]) }
        ExecutorDeviceType.CPU = some (Int.ofNat 4096) :=
  ⟨(c9_get_join_hash_buffer { cpu_hash_table_buff := none }).1 rfl,
   (c9_get_join_hash_buffer { cpu_hash_table_buff := some (4096, [1, -1]) }).2
      4096 [1, -1] rfl⟩

/-! ### The Cartesian product iterator (claim C10) -/

theorem cpiBuild_length {α : Type} (outer : List (List α)) (input_size : List Nat)
    (size : Nat) :
    ∀ (n : Nat) (idx steps : List Nat),
      (cpiBuild outer input_size size n idx steps).length = n := by
  intro n
  induction n with
  | zero => intro idx steps; rfl
  | succ m ih =>
    intro idx steps
    simp [cpiBuild, ih]

theorem foldl_mul_one (l : List Nat) :
    l.foldl (fun a b => a * b) 1 = l.prod := by
  rw [List.prod_eq_foldl]

/-- Claim C10, counterexample: for the outer container `[[]]` (every inner
container empty) the constructor generates 0 tuples while the product of the
sizes of the non-empty inner containers is the empty product 1, so the claimed
equality fails. -/
theorem c10_counterexample :
    cartesianProductSize ([[]] : List (List Nat)) ≠
      claimedTupleCount ([[]] : List (List Nat)) := by
  decide

/-- Claim C10 as amended: when at least one inner container is non-empty, the
constructor skips the empty inner containers and generates exactly the product
of the sizes of the non-empty ones (if every inner container is empty — or the
outer container is empty — it generates no tuples at all). -/
theorem c10_amended_tuple_count {α : Type} (outer : List (List α))
    (h : ∃ l ∈ outer, l ≠ []) :
    cartesianProductSize outer = claimedTupleCount outer := by
  obtain ⟨l0, hl0, hne⟩ := h
  have hmem : l0 ∈ outer.filter (fun e => decide (e.length ≠ 0)) := by
    rw [List.mem_filter]
    refine ⟨hl0, ?_⟩
    simpa [List.length_eq_zero] using hne
  have hsize : (outer.filter (fun e => decide (e.length ≠ 0))).length ≠ 0 := by
    intro hlen
    rw [List.length_eq_zero.mp hlen] at hmem
    exact absurd hmem (List.not_mem_nil l0)
  have hpos : ¬ ((0 : Nat) = SIZE_T_MAX ∨
      (outer.filter (fun e => decide (e.length ≠ 0))).length = 0) := by
    push_neg
    exact ⟨by decide, hsize⟩
  rw [cartesianProductSize]
  simp only [cartesianProductIteratorInit, if_neg hpos, cpiBuild_length, foldl_mul_one]
  rfl

/-- Claim C10 witness for the amended statement: `[[1, 2], [], [3]]` has the
empty member skipped and generates 2 · 1 = 2 tuples. -/
theorem c10_amended_witness :
    cartesianProductSize [[(1 : Nat), 2], [], [3]] =
      claimedTupleCount [[(1 : Nat), 2], [], [3]] :=
  c10_amended_tuple_count [[(1 : Nat), 2], [], [3]]
    ⟨[(1 : Nat), 2], by simp, by simp⟩

/-! ### Row access and bucket arithmetic -/

theorem getD_lt_length_of_some {rows : List (Option Int)} {i : Nat} {v : Int}
    (h : rows.getD i none = some v) : i < rows.length := by
  by_contra hge
  rw [List.getD_eq_getElem?_getD, List.getElem?_eq_none (by omega)] at h
  exact absurd h (by simp)

theorem mem_of_getD_some {rows : List (Option Int)} {i : Nat} {v : Int}
    (h : rows.getD i none = some v) : (some v) ∈ rows := by
  have hlt := getD_lt_length_of_some h
  rw [List.getD_eq_getElem?_getD, List.getElem?_eq_getElem hlt] at h
  exact h ▸ List.getElem_mem hlt

theorem key_range_of_getD {rows : List (Option Int)} {minVal maxVal : Int}
    (hrange : ∀ x ∈ rows, keyInRange minVal maxVal x = true)
    {i : Nat} {v : Int} (h : rows.getD i none = some v) :
    minVal ≤ v ∧ v ≤ maxVal := by
  have := hrange _ (mem_of_getD_some h)
  simpa [keyInRange] using this

theorem bucket_lt_entry_count {minVal maxVal v : Int}
    (h1 : minVal ≤ v) (h2 : v ≤ maxVal) :
    (v - minVal).toNat < hashEntryCount minVal maxVal := by
  rw [hashEntryCount]
  omega

theorem getD_replicate_self (n b : Nat) (a : Int) :
    (List.replicate n a).getD b a = a := by
  rw [List.getD_eq_getElem?_getD, List.getElem?_replicate]
  split <;> rfl

theorem getD_set_self {l : List Int} {b : Nat} (hb : b < l.length) (x d : Int) :
    (l.set b x).getD b d = x := by
  rw [List.getD_eq_getElem?_getD, List.getElem?_set_self', List.getElem?_eq_getElem hb]
  rfl

theorem getD_set_ne {l : List Int} {j b : Nat} (h : j ≠ b) (x d : Int) :
    (l.set j x).getD b d = l.getD b d := by
  rw [List.getD_eq_getElem?_getD, List.getElem?_set_ne h, ← List.getD_eq_getElem?_getD]

/-! ### Stepping equations of the One-to-One population loop -/

theorem fillOneToOne_cons_none (rows : List (Option Int)) (minVal invalid : Int)
    {i : Nat} (h : rows.getD i none = none) (order : List Nat) (table : List Int) :
    fillOneToOne rows minVal invalid (i :: order) table =
      fillOneToOne rows minVal invalid order table := by
  simp only [fillOneToOne, h]

theorem fillOneToOne_cons_dup (rows : List (Option Int)) (minVal invalid : Int)
    {i : Nat} {v : Int} (table : List Int) (h : rows.getD i none = some v)
    (hdup : ¬ table.getD ((v - minVal).toNat) invalid = invalid)
    (order : List Nat) :
    fillOneToOne rows minVal invalid (i :: order) table =
      (ERR_COLUMN_NOT_UNIQUE, table) := by
  simp only [fillOneToOne, h]
  rw [if_pos hdup]

theorem fillOneToOne_cons_write (rows : List (Option Int)) (minVal invalid : Int)
    {i : Nat} {v : Int} (table : List Int) (h : rows.getD i none = some v)
    (hfree : table.getD ((v - minVal).toNat) invalid = invalid)
    (order : List Nat) :
    fillOneToOne rows minVal invalid (i :: order) table =
      fillOneToOne rows minVal invalid order
        (table.set ((v - minVal).toNat) (Int.ofNat i)) := by
  simp only [fillOneToOne, h]
  rw [if_neg (fun hn => hn hfree)]

theorem fillOneToOne_length (rows : List (Option Int)) (minVal invalid : Int) :
    ∀ (order : List Nat) (table : List Int),
      ((fillOneToOne rows minVal invalid order table).2).length = table.length := by
  intro order
  induction order with
  | nil => intro table; rfl
  | cons i order ih =>
    intro table
    cases hr : rows.getD i none with
    | none =>
      rw [fillOneToOne_cons_none rows minVal invalid hr]
      exact ih table
    | some v =>
      by_cases hc : table.getD ((v - minVal).toNat) invalid = invalid
      · rw [fillOneToOne_cons_write rows minVal invalid table hr hc, ih, List.length_set]
      · rw [fillOneToOne_cons_dup rows minVal invalid table hr hc]

theorem fillOneToOne_append_ok (rows : List (Option Int)) (minVal invalid : Int) :
    ∀ (p q : List Nat) (table : List Int),
      (fillOneToOne rows minVal invalid p table).1 = 0 →
      fillOneToOne rows minVal invalid (p ++ q) table =
        fillOneToOne rows minVal invalid q ((fillOneToOne rows minVal invalid p table).2) := by
  intro p
  induction p with
  | nil => intro q table _; rfl
  | cons i p ih =>
    intro q table h0
    rw [List.cons_append]
    cases hr : rows.getD i none with
    | none =>
      rw [fillOneToOne_cons_none rows minVal invalid hr p] at h0
      rw [fillOneToOne_cons_none rows minVal invalid hr (p ++ q),
        fillOneToOne_cons_none rows minVal invalid hr p]
      exact ih q table h0
    | some v =>
      by_cases hc : table.getD ((v - minVal).toNat) invalid = invalid
      · rw [fillOneToOne_cons_write rows minVal invalid table hr hc p] at h0
        rw [fillOneToOne_cons_write rows minVal invalid table hr hc (p ++ q),
          fillOneToOne_cons_write rows minVal invalid table hr hc p]
        exact ih q _ h0
      · rw [fillOneToOne_cons_dup rows minVal invalid table hr hc p] at h0
        simp [ERR_COLUMN_NOT_UNIQUE] at h0

theorem fillOneToOne_hot_slot (rows : List (Option Int)) (minVal invalid : Int) :
    ∀ (order : List Nat) (table : List Int) (b : Nat),
      ¬ table.getD b invalid = invalid →
      (∃ j ∈ order, rowBucket rows minVal j = some b) →
      (fillOneToOne rows minVal invalid order table).1 = ERR_COLUMN_NOT_UNIQUE := by
  intro order
  induction order with
  | nil =>
    intro table b _ hex
    simp at hex
  | cons i order ih =>
    intro table b hhot hex
    cases hr : rows.getD i none with
    | none =>
      rw [fillOneToOne_cons_none rows minVal invalid hr]
      refine ih table b hhot ?_
      obtain ⟨j, hj, hbj⟩ := hex
      rcases List.mem_cons.mp hj with rfl | hj2
      · rw [rowBucket, hr] at hbj
        exact absurd hbj (by simp)
      · exact ⟨j, hj2, hbj⟩
    | some v =>
      by_cases hc : table.getD ((v - minVal).toNat) invalid = invalid
      · have hbne : (v - minVal).toNat ≠ b := by
          intro he
          rw [he] at hc
          exact hhot hc
        rw [fillOneToOne_cons_write rows minVal invalid table hr hc]
        refine ih _ b ?_ ?_
        · rw [getD_set_ne hbne]
          exact hhot
        · obtain ⟨j, hj, hbj⟩ := hex
          rcases List.mem_cons.mp hj with rfl | hj2
          · rw [rowBucket, hr] at hbj
            simp at hbj
            exact absurd hbj hbne
          · exact ⟨j, hj2, hbj⟩
      · rw [fillOneToOne_cons_dup rows minVal invalid table hr hc]

theorem fillOneToOne_ok_char (rows : List (Option Int)) (minVal invalid : Int) :
    ∀ (order : List Nat) (table : List Int),
      (∀ i ∈ order, ∀ v, rows.getD i none = some v →
        (v - minVal).toNat < table.length) →
      (∀ i ∈ order, ∀ v, rows.getD i none = some v →
        table.getD ((v - minVal).toNat) invalid = invalid) →
      List.Pairwise (fun i j => ∀ b, rowBucket rows minVal i = some b →
        rowBucket rows minVal j ≠ some b) order →
      (fillOneToOne rows minVal invalid order table).1 = 0 ∧
      (∀ i ∈ order, ∀ v, rows.getD i none = some v →
        ((fillOneToOne rows minVal invalid order table).2).getD ((v - minVal).toNat) invalid =
          Int.ofNat i) ∧
      (∀ b, (∀ i ∈ order, rowBucket rows minVal i ≠ some b) →
        ((fillOneToOne rows minVal invalid order table).2)[b]? = table[b]?) := by
  intro order
  induction order with
  | nil =>
    intro table _ _ _
    exact ⟨rfl, by simp, fun b _ => rfl⟩
  | cons i order ih =>
    intro table hlen hfree hpw
    rcases List.pairwise_cons.mp hpw with ⟨hhead, htail⟩
    cases hr : rows.getD i none with
    | none =>
      rw [fillOneToOne_cons_none rows minVal invalid hr]
      have hres := ih table (fun j hj => hlen j (List.mem_cons_of_mem i hj))
        (fun j hj => hfree j (List.mem_cons_of_mem i hj)) htail
      refine ⟨hres.1, ?_, ?_⟩
      · intro j hj w hw
        rcases List.mem_cons.mp hj with rfl | hj2
        · rw [hr] at hw
          exact absurd hw (by simp)
        · exact hres.2.1 j hj2 w hw
      · intro b hb
        exact hres.2.2 b (fun j hj => hb j (List.mem_cons_of_mem i hj))
    | some v =>
      have hfree_i := hfree i (List.mem_cons_self i order) v hr
      have hlen_i := hlen i (List.mem_cons_self i order) v hr
      have hbucket_i : rowBucket rows minVal i = some ((v - minVal).toNat) := by
        rw [rowBucket, hr]
        rfl
      rw [fillOneToOne_cons_write rows minVal invalid table hr hfree_i]
      have hlen1 : ∀ j ∈ order, ∀ w, rows.getD j none = some w →
          (w - minVal).toNat < (table.set ((v - minVal).toNat) (Int.ofNat i)).length := by
        intro j hj w hw
        rw [List.length_set]
        exact hlen j (List.mem_cons_of_mem i hj) w hw
      have hfree1 : ∀ j ∈ order, ∀ w, rows.getD j none = some w →
          (table.set ((v - minVal).toNat) (Int.ofNat i)).getD ((w - minVal).toNat) invalid =
            invalid := by
        intro j hj w hw
        have hbj : rowBucket rows minVal j = some ((w - minVal).toNat) := by
          rw [rowBucket, hw]
          rfl
        have hne : (v - minVal).toNat ≠ (w - minVal).toNat := by
          intro he
          exact hhead j hj ((v - minVal).toNat) hbucket_i (he ▸ hbj)
        rw [getD_set_ne hne]
        exact hfree j (List.mem_cons_of_mem i hj) w hw
      have ihres := ih (table.set ((v - minVal).toNat) (Int.ofNat i)) hlen1 hfree1 htail
      refine ⟨ihres.1, ?_, ?_⟩
      · intro j hj w hw
        rcases List.mem_cons.mp hj with rfl | hj2
        · rw [hr] at hw
          injection hw with hw'
          subst hw'
          have hnone : ∀ j ∈ order, rowBucket rows minVal j ≠ some ((v - minVal).toNat) :=
            fun j hj => hhead j hj ((v - minVal).toNat) hbucket_i
          have h3 := ihres.2.2 ((v - minVal).toNat) hnone
          rw [List.getD_eq_getElem?_getD, h3, List.getElem?_set_self',
            List.getElem?_eq_getElem hlen_i]
          rfl
        · exact ihres.2.1 j hj2 w hw
      · intro b hb
        have hbne : (v - minVal).toNat ≠ b :=
          fun he => hb i (List.mem_cons_self i order) (he ▸ hbucket_i)
        rw [ihres.2.2 b (fun j hj => hb j (List.mem_cons_of_mem i hj)),
          List.getElem?_set_ne hbne]

/-- Claim C1: for an integer range `[minVal, maxVal]` and a row set whose
keys are all unique and within range, the One-to-One build succeeds and the
resulting table satisfies: the bucket `k − min` of every source row with key
`k` holds that row's index, and every bucket with no corresponding source row
holds the invalid sentinel. -/
theorem c1_one_to_one_correct (rows : List (Option Int)) (minVal maxVal invalid : Int)
    (hrange : ∀ x ∈ rows, keyInRange minVal maxVal x = true)
    (huniq : ∀ i < rows.length, ∀ j < rows.length, i ≠ j →
      rows.getD i none = none ∨ rows.getD i none ≠ rows.getD j none) :
    (initHashTableOnCpu rows minVal (hashEntryCount minVal maxVal) invalid).1 = 0 ∧
    (∀ i v, rows.getD i none = some v →
      ((initHashTableOnCpu rows minVal (hashEntryCount minVal maxVal) invalid).2).getD
        ((v - minVal).toNat) invalid = Int.ofNat i) ∧
    (∀ b, b < hashEntryCount minVal maxVal →
      (∀ i, rowBucket rows minVal i ≠ some b) →
      ((initHashTableOnCpu rows minVal (hashEntryCount minVal maxVal) invalid).2).getD
        b invalid = invalid) := by
  have hpw : List.Pairwise (fun i j => ∀ b, rowBucket rows minVal i = some b →
      rowBucket rows minVal j ≠ some b) (List.range rows.length) := by
    rw [List.pairwise_iff_getElem]
    intro a b ha hb hab
    simp only [List.getElem_range]
    intro bk hba hbb
    simp only [rowBucket, Option.map_eq_some'] at hba hbb
    obtain ⟨v, hv, hvb⟩ := hba
    obtain ⟨w, hw, hwb⟩ := hbb
    have hal : a < rows.length := by simpa using ha
    have hbl : b < rows.length := by simpa using hb
    rcases huniq a hal b hbl (Nat.ne_of_lt hab) with h | h
    · rw [hv] at h
      exact absurd h (by simp)
    · rw [hv, hw] at h
      have hvw : v ≠ w := fun he => h (he ▸ rfl)
      have hr1 := key_range_of_getD hrange hv
      have hr2 := key_range_of_getD hrange hw
      omega
  have hchar := fillOneToOne_ok_char rows minVal invalid (List.range rows.length)
    (List.replicate (hashEntryCount minVal maxVal) invalid)
    (by
      intro i _ v hv
      rw [List.length_replicate]
      have hr := key_range_of_getD hrange hv
      exact bucket_lt_entry_count hr.1 hr.2)
    (by
      intro i _ v hv
      exact getD_replicate_self _ _ _)
    hpw
  refine ⟨hchar.1, ?_, ?_⟩
  · intro i v hv
    exact hchar.2.1 i (List.mem_range.mpr (getD_lt_length_of_some hv)) v hv
  · intro b hbE hnone
    have h3 := hchar.2.2 b (fun i _ => hnone i)
    rw [initHashTableOnCpu, List.getD_eq_getElem?_getD, h3, List.getElem?_replicate,
      if_pos hbE]
    rfl

/-- Claim C1 witness: the all-unique rows `[10, 12, 11]` over the range
`[10, 12]` build a successful One-to-One table. -/
theorem c1_witness :
    (∀ x ∈ [some (10 : Int), some 12, some 11], keyInRange 10 12 x = true) ∧
    ((initHashTableOnCpu [some (10 : Int), some 12, some 11] 10
        (hashEntryCount 10 12) (-1)).1 = 0 ∧
     (∀ i v, [some (10 : Int), some 12, some 11].getD i none = some v →
       ((initHashTableOnCpu [some (10 : Int), some 12, some 11] 10
           (hashEntryCount 10 12) (-1)).2).getD ((v - 10).toNat) (-1) = Int.ofNat i) ∧
     (∀ b, b < hashEntryCount 10 12 →
       (∀ i, rowBucket [some (10 : Int), some 12, some 11] 10 i ≠ some b) →
       ((initHashTableOnCpu [some (10 : Int), some 12, some 11] 10
           (hashEntryCount 10 12) (-1)).2).getD b (-1) = -1)) :=
  ⟨by decide,
   c1_one_to_one_correct [some (10 : Int), some 12, some 11] 10 12 (-1)
     (by decide) (by decide)⟩

/-! ### Counting and prefix-sum facts for the One-to-Many layout -/

theorem bucketMatches_cons (rows : List (Option Int)) (minVal : Int) (b : Nat)
    (i : Nat) (order : List Nat) :
    bucketMatches rows minVal b (i :: order) =
      if rowBucket rows minVal i = some b then i :: bucketMatches rows minVal b order
      else bucketMatches rows minVal b order := by
  simp [bucketMatches, List.filter_cons]

theorem bucketMatches_append (rows : List (Option Int)) (minVal : Int) (b : Nat)
    (p q : List Nat) :
    bucketMatches rows minVal b (p ++ q) =
      bucketMatches rows minVal b p ++ bucketMatches rows minVal b q := by
  simp [bucketMatches, List.filter_append]

theorem countsOf_append (rows : List (Option Int)) (minVal : Int) (p q : List Nat)
    (b : Nat) :
    countsOf rows minVal (p ++ q) b = countsOf rows minVal p b + countsOf rows minVal q b := by
  simp [countsOf, bucketMatches_append]

theorem countsOf_cons (rows : List (Option Int)) (minVal : Int) (i : Nat)
    (order : List Nat) (b : Nat) :
    countsOf rows minVal (i :: order) b =
      (if rowBucket rows minVal i = some b then 1 else 0) + countsOf rows minVal order b := by
  by_cases h : rowBucket rows minVal i = some b
  · rw [countsOf, bucketMatches_cons, if_pos h, List.length_cons, if_pos h, countsOf]
    omega
  · rw [countsOf, bucketMatches_cons, if_neg h, if_neg h, countsOf]
    omega

theorem offsetsOf_congr {f g : Nat → Nat} :
    ∀ {B : Nat}, (∀ b < B, f b = g b) → offsetsOf f B = offsetsOf g B := by
  intro B
  induction B with
  | zero => intro _; rfl
  | succ B ih =>
    intro h
    rw [offsetsOf, offsetsOf, ih (fun b hb => h b (by omega)), h B (by omega)]

theorem offsetsOf_zero_counts : ∀ (B : Nat), offsetsOf (fun _ => 0) B = 0 := by
  intro B
  induction B with
  | zero => rfl
  | succ B ih => rw [offsetsOf, ih]

theorem offsetsOf_mono (c : Nat → Nat) {b1 b2 : Nat} (h : b1 ≤ b2) :
    offsetsOf c b1 ≤ offsetsOf c b2 := by
  induction b2 with
  | zero =>
    have hb : b1 = 0 := Nat.le_zero.mp h
    subst hb
    exact Nat.le_refl _
  | succ B ih =>
    rcases Nat.eq_or_lt_of_le h with rfl | hlt
    · exact Nat.le_refl _
    · have := ih (Nat.lt_succ_iff.mp hlt)
      rw [offsetsOf]
      omega

theorem offsetsOf_disjoint (c : Nat → Nat) {b1 b2 : Nat} (h : b1 < b2) :
    offsetsOf c b1 + c b1 ≤ offsetsOf c b2 := by
  have h2 : offsetsOf c b1 + c b1 = offsetsOf c (b1 + 1) := rfl
  rw [h2]
  exact offsetsOf_mono c h

theorem offsets_pos_ne (c : Nat → Nat) {b1 b2 r1 r2 : Nat}
    (hne : b1 ≠ b2) (h1 : r1 < c b1) (h2 : r2 < c b2) :
    offsetsOf c b1 + r1 ≠ offsetsOf c b2 + r2 := by
  rcases Nat.lt_or_ge b1 b2 with h | h
  · have := offsetsOf_disjoint c h
    omega
  · have hlt : b2 < b1 := by omega
    have := offsetsOf_disjoint c hlt
    omega

theorem offsetsOf_add_indicator (c : Nat → Nat) {b0 : Nat} :
    ∀ {B : Nat}, b0 < B →
      offsetsOf (fun b => c b + (if b = b0 then 1 else 0)) B = offsetsOf c B + 1 := by
  intro B
  induction B with
  | zero => intro h; exact absurd h (Nat.not_lt_zero b0)
  | succ B ih =>
    intro h
    rcases Nat.lt_succ_iff_lt_or_eq.mp h with hlt | rfl
    · rw [offsetsOf, offsetsOf, ih hlt, if_neg (by omega)]
      omega
    · rw [offsetsOf, offsetsOf,
        offsetsOf_congr (g := c) (fun b hb => by rw [if_neg (by omega)]; omega),
        if_pos rfl]
      omega

theorem offsetsOf_total (rows : List (Option Int)) (minVal : Int) (B : Nat) :
    ∀ (order : List Nat),
      (∀ i ∈ order, ∀ b, rowBucket rows minVal i = some b → b < B) →
      offsetsOf (countsOf rows minVal order) B = numNonNullKeys rows minVal order := by
  intro order
  induction order with
  | nil =>
    intro _
    have h := offsetsOf_congr (f := countsOf rows minVal []) (g := fun _ => 0)
      (B := B) (fun b _ => rfl)
    rw [h, offsetsOf_zero_counts]
    rfl
  | cons i order ih =>
    intro hB
    have hBtail : ∀ j ∈ order, ∀ b, rowBucket rows minVal j = some b → b < B :=
      fun j hj => hB j (List.mem_cons_of_mem i hj)
    cases hbi : rowBucket rows minVal i with
    | none =>
      have hc : ∀ b, b < B → countsOf rows minVal (i :: order) b = countsOf rows minVal order b := by
        intro b _
        rw [countsOf_cons, if_neg (by rw [hbi]; simp)]
        omega
      have hnn : numNonNullKeys rows minVal (i :: order) = numNonNullKeys rows minVal order := by
        rw [numNonNullKeys, List.filter_cons, if_neg (by rw [hbi]; simp)]
        rfl
      rw [offsetsOf_congr hc, ih hBtail, hnn]
    | some b0 =>
      have hb0 : b0 < B := hB i (List.mem_cons_self i order) b0 hbi
      have hc : ∀ b, b < B → countsOf rows minVal (i :: order) b =
          countsOf rows minVal order b + (if b = b0 then 1 else 0) := by
        intro b _
        rw [countsOf_cons]
        by_cases hbb : b = b0
        · subst hbb
          rw [if_pos hbi, if_pos rfl]
          omega
        · rw [if_neg (fun hcc => hbb (by rw [hbi] at hcc; injection hcc with h2; omega)),
            if_neg hbb]
          omega
      have hnn : numNonNullKeys rows minVal (i :: order) =
          numNonNullKeys rows minVal order + 1 := by
        rw [numNonNullKeys, List.filter_cons, if_pos (by rw [hbi]; rfl), List.length_cons]
        rfl
      rw [offsetsOf_congr hc, offsetsOf_add_indicator _ hb0, ih hBtail, hnn]

theorem getD_append_left {l1 l2 : List Nat} {r : Nat} (h : r < l1.length) (d : Nat) :
    (l1 ++ l2).getD r d = l1.getD r d := by
  rw [List.getD_eq_getElem?_getD, List.getElem?_append_left h, ← List.getD_eq_getElem?_getD]

theorem getD_append_at_length (l1 : List Nat) (x d : Nat) :
    (l1 ++ [x]).getD l1.length d = x := by
  rw [List.getD_eq_getElem?_getD, List.getElem?_append_right (Nat.le_refl _), Nat.sub_self]
  rfl

/-! ### Correctness of the scatter pass -/

theorem getElem?_set_some {l : List (Option Nat)} {q : Nat} (hq : q < l.length)
    (x : Option Nat) : (l.set q x)[q]? = some x := by
  rw [List.getElem?_set_self', List.getElem?_eq_getElem hq]
  rfl

theorem scatterPass_char (rows : List (Option Int)) (minVal : Int) (B : Nat)
    (full : List Nat)
    (hB : ∀ i ∈ full, ∀ b, rowBucket rows minVal i = some b → b < B) :
    ∀ (rest p : List Nat), full = p ++ rest →
    ∀ (payload : List (Option Nat)) (cursor : Nat → Nat),
      payload.length = numNonNullKeys rows minVal full →
      (∀ b, cursor b = countsOf rows minVal p b) →
      (∀ b, b < B → ∀ r, r < countsOf rows minVal p b →
        payload[offsetsOf (countsOf rows minVal full) b + r]? =
          some (some ((bucketMatches rows minVal b p).getD r 0))) →
      (scatterPass rows minVal (offsetsOf (countsOf rows minVal full)) rest
          (payload, cursor)).1.length = numNonNullKeys rows minVal full ∧
      (∀ b, b < B → ∀ r, r < countsOf rows minVal (p ++ rest) b →
        (scatterPass rows minVal (offsetsOf (countsOf rows minVal full)) rest
            (payload, cursor)).1[offsetsOf (countsOf rows minVal full) b + r]? =
          some (some ((bucketMatches rows minVal b (p ++ rest)).getD r 0))) := by
  intro rest
  induction rest with
  | nil =>
    intro p hfull payload cursor hlen hcur hslot
    rw [List.append_nil] at hfull
    subst hfull
    rw [List.append_nil]
    exact ⟨hlen, hslot⟩
  | cons i rest2 ih =>
    intro p hfull payload cursor hlen hcur hslot
    have hl : (p ++ [i]) ++ rest2 = p ++ i :: rest2 := by simp
    have hfull2 : full = (p ++ [i]) ++ rest2 := by rw [hfull, hl]
    cases hbi : rowBucket rows minVal i with
    | none =>
      have hstep : scatterStep rows minVal (offsetsOf (countsOf rows minVal full))
          (payload, cursor) i = (payload, cursor) := by
        rw [scatterStep, hbi]
      have hci : ∀ b, countsOf rows minVal (p ++ [i]) b = countsOf rows minVal p b := by
        intro b
        rw [countsOf_append, countsOf_cons, if_neg (by rw [hbi]; simp)]
        rfl
      have hbm : ∀ b, bucketMatches rows minVal b (p ++ [i]) =
          bucketMatches rows minVal b p := by
        intro b
        rw [bucketMatches_append, bucketMatches_cons, if_neg (by rw [hbi]; simp)]
        simp [bucketMatches]
      have hres := ih (p ++ [i]) hfull2 payload cursor hlen
        (fun b => by rw [hci b]; exact hcur b)
        (fun b hb r hr => by
          rw [hci b] at hr
          rw [hbm b]
          exact hslot b hb r hr)
      have hun : scatterPass rows minVal (offsetsOf (countsOf rows minVal full)) (i :: rest2)
          (payload, cursor) =
          scatterPass rows minVal (offsetsOf (countsOf rows minVal full)) rest2
            (payload, cursor) := by
        have h0 : scatterPass rows minVal (offsetsOf (countsOf rows minVal full)) (i :: rest2)
            (payload, cursor) =
            scatterPass rows minVal (offsetsOf (countsOf rows minVal full)) rest2
              (scatterStep rows minVal (offsetsOf (countsOf rows minVal full))
                (payload, cursor) i) := rfl
        rw [h0, hstep]
      rw [hun, ← hl]
      exact hres
    | some bhat =>
      have hbhatB : bhat < B := hB i
        (by rw [hfull]; exact List.mem_append.mpr (Or.inr (List.mem_cons_self i rest2)))
        bhat hbi
      have hcfull : ∀ b, countsOf rows minVal full b =
          countsOf rows minVal p b + countsOf rows minVal (i :: rest2) b := by
        intro b
        rw [hfull, countsOf_append]
      have hcountlt : countsOf rows minVal p bhat < countsOf rows minVal full bhat := by
        have hc := hcfull bhat
        rw [countsOf_cons, if_pos hbi] at hc
        omega
      have htotal := offsetsOf_total rows minVal B full hB
      have hq_lt : offsetsOf (countsOf rows minVal full) bhat +
          countsOf rows minVal p bhat < payload.length := by
        have h1 := offsetsOf_disjoint (countsOf rows minVal full) hbhatB
        rw [htotal] at h1
        rw [hlen]
        omega
      have hcur_bhat : cursor bhat = countsOf rows minVal p bhat := hcur bhat
      have hstep : scatterStep rows minVal (offsetsOf (countsOf rows minVal full))
          (payload, cursor) i =
          (payload.set (offsetsOf (countsOf rows minVal full) bhat + cursor bhat) (some i),
           Function.update cursor bhat (cursor bhat + 1)) := by
        rw [scatterStep, hbi]
      have hci : ∀ b, countsOf rows minVal (p ++ [i]) b =
          countsOf rows minVal p b + (if b = bhat then 1 else 0) := by
        intro b
        rw [countsOf_append, countsOf_cons]
        by_cases hbb : b = bhat
        · subst hbb
          rw [if_pos hbi, if_pos rfl]
          rfl
        · rw [if_neg (fun hcc => hbb (by rw [hbi] at hcc; injection hcc with h2; omega)),
            if_neg hbb]
          rfl
      have hbm : ∀ b, bucketMatches rows minVal b (p ++ [i]) =
          bucketMatches rows minVal b p ++ (if b = bhat then [i] else []) := by
        intro b
        rw [bucketMatches_append, bucketMatches_cons]
        by_cases hbb : b = bhat
        · subst hbb
          rw [if_pos hbi, if_pos rfl]
          rfl
        · rw [if_neg (fun hcc => hbb (by rw [hbi] at hcc; injection hcc with h2; omega)),
            if_neg hbb]
          rfl
      have hlen2 : (payload.set (offsetsOf (countsOf rows minVal full) bhat + cursor bhat)
          (some i)).length = numNonNullKeys rows minVal full := by
        rw [List.length_set, hlen]
      have hcur2 : ∀ b, Function.update cursor bhat (cursor bhat + 1) b =
          countsOf rows minVal (p ++ [i]) b := by
        intro b
        rw [hci b]
        by_cases hbb : b = bhat
        · subst hbb
          rw [Function.update_same, hcur b, if_pos rfl]
        · rw [Function.update_noteq hbb, hcur b, if_neg hbb]
          rfl
      have hslot2 : ∀ b, b < B → ∀ r, r < countsOf rows minVal (p ++ [i]) b →
          (payload.set (offsetsOf (countsOf rows minVal full) bhat + cursor bhat)
            (some i))[offsetsOf (countsOf rows minVal full) b + r]? =
            some (some ((bucketMatches rows minVal b (p ++ [i])).getD r 0)) := by
        intro b hbB r hr
        rw [hci b] at hr
        by_cases hbb : b = bhat
        · subst hbb
          rw [if_pos rfl] at hr
          rcases Nat.lt_or_ge r (countsOf rows minVal p b) with hrlt | hrge
          · have hne : offsetsOf (countsOf rows minVal full) b + cursor b ≠
                offsetsOf (countsOf rows minVal full) b + r := by
              rw [hcur_bhat]
              omega
            rw [List.getElem?_set_ne hne, hslot b hbB r hrlt, hbm b, if_pos rfl,
              getD_append_left (show r < (bucketMatches rows minVal b p).length from hrlt)]
          · have hreq : r = countsOf rows minVal p b := by omega
            subst hreq
            rw [hcur_bhat, getElem?_set_some hq_lt, hbm b, if_pos rfl,
              show countsOf rows minVal p b = (bucketMatches rows minVal b p).length from rfl,
              getD_append_at_length]
        · rw [if_neg hbb] at hr
          have hrlt : r < countsOf rows minVal p b := by omega
          have hr_full : r < countsOf rows minVal full b := by
            have := hcfull b
            omega
          have hne : offsetsOf (countsOf rows minVal full) bhat + cursor bhat ≠
              offsetsOf (countsOf rows minVal full) b + r := by
            rw [hcur_bhat]
            exact offsets_pos_ne (countsOf rows minVal full)
              (fun h => hbb h.symm) hcountlt hr_full
          rw [List.getElem?_set_ne hne, hslot b hbB r hrlt, hbm b, if_neg hbb,
            List.append_nil]
      have hres := ih (p ++ [i]) hfull2
        (payload.set (offsetsOf (countsOf rows minVal full) bhat + cursor bhat) (some i))
        (Function.update cursor bhat (cursor bhat + 1)) hlen2 hcur2 hslot2
      have hun : scatterPass rows minVal (offsetsOf (countsOf rows minVal full)) (i :: rest2)
          (payload, cursor) =
          scatterPass rows minVal (offsetsOf (countsOf rows minVal full)) rest2
            (payload.set (offsetsOf (countsOf rows minVal full) bhat + cursor bhat) (some i),
             Function.update cursor bhat (cursor bhat + 1)) := by
        have h0 : scatterPass rows minVal (offsetsOf (countsOf rows minVal full)) (i :: rest2)
            (payload, cursor) =
            scatterPass rows minVal (offsetsOf (countsOf rows minVal full)) rest2
              (scatterStep rows minVal (offsetsOf (countsOf rows minVal full))
                (payload, cursor) i) := rfl
        rw [h0, hstep]
      rw [hun, ← hl]
      exact hres

/-! ### The One-to-Many table layout -/

theorem initOneToManyOrdered_counts (rows : List (Option Int)) (minVal : Int)
    (ec : Nat) (order : List Nat) (b : Nat) :
    (initOneToManyOrdered rows minVal ec order).counts b =
      countsOf rows minVal order b := rfl

theorem initOneToManyOrdered_offsets (rows : List (Option Int)) (minVal : Int)
    (ec : Nat) (order : List Nat) (b : Nat) :
    (initOneToManyOrdered rows minVal ec order).offsets b =
      offsetsOf (countsOf rows minVal order) b := rfl

theorem initOneToManyOrdered_slices (rows : List (Option Int)) (minVal : Int)
    (B : Nat) (order : List Nat)
    (hB : ∀ i ∈ order, ∀ b, rowBucket rows minVal i = some b → b < B) :
    ∀ b, b < B → tableSlice (initOneToManyOrdered rows minVal B order) b =
      (bucketMatches rows minVal b order).map some := by
  have hchar := scatterPass_char rows minVal B order hB order [] rfl
    (List.replicate (numNonNullKeys rows minVal order) none) (fun _ => 0)
    (List.length_replicate _ _) (fun b => rfl)
    (by
      intro b _ r hr
      exact absurd hr (by simp [countsOf, bucketMatches]))
  simp only [List.nil_append] at hchar
  intro b hbB
  have htotal := offsetsOf_total rows minVal B order hB
  have hoffcnt : offsetsOf (countsOf rows minVal order) b + countsOf rows minVal order b ≤
      numNonNullKeys rows minVal order := by
    have h1 := offsetsOf_disjoint (countsOf rows minVal order) hbB
    rw [htotal] at h1
    exact h1
  have hslice_eq : tableSlice (initOneToManyOrdered rows minVal B order) b =
      ((scatterPass rows minVal (offsetsOf (countsOf rows minVal order)) order
        (List.replicate (numNonNullKeys rows minVal order) none, fun _ => 0)).1.drop
          (offsetsOf (countsOf rows minVal order) b)).take
            (countsOf rows minVal order b) := rfl
  rw [hslice_eq]
  apply List.ext_getElem?
  intro r
  by_cases hr : r < countsOf rows minVal order b
  · have hrlen : r < (bucketMatches rows minVal b order).length := hr
    rw [List.getElem?_take_of_lt hr, List.getElem?_drop, hchar.2 b hbB r hr,
      List.getElem?_map, List.getElem?_eq_getElem hrlen]
    simp [List.getD_eq_getElem?_getD, List.getElem?_eq_getElem hrlen]
  · have hdroplen := hchar.1
    have h1 : (((scatterPass rows minVal (offsetsOf (countsOf rows minVal order)) order
        (List.replicate (numNonNullKeys rows minVal order) none, fun _ => 0)).1.drop
          (offsetsOf (countsOf rows minVal order) b)).take
            (countsOf rows minVal order b)).length ≤ r := by
      rw [List.length_take]
      have := Nat.min_le_left (countsOf rows minVal order b)
        ((scatterPass rows minVal (offsetsOf (countsOf rows minVal order)) order
          (List.replicate (numNonNullKeys rows minVal order) none, fun _ => 0)).1.drop
            (offsetsOf (countsOf rows minVal order) b)).length
      omega
    have h2 : ((bucketMatches rows minVal b order).map some).length ≤ r := by
      rw [List.length_map]
      exact Nat.le_of_not_lt hr
    rw [List.getElem?_eq_none h1, List.getElem?_eq_none h2]

/-! ### Error behaviour of the One-to-One attempt -/

theorem fillOneToOne_fst (rows : List (Option Int)) (minVal invalid : Int) :
    ∀ (order : List Nat) (table : List Int),
      (fillOneToOne rows minVal invalid order table).1 = 0 ∨
      (fillOneToOne rows minVal invalid order table).1 = ERR_COLUMN_NOT_UNIQUE := by
  intro order
  induction order with
  | nil => intro table; exact Or.inl rfl
  | cons i order ih =>
    intro table
    cases hr : rows.getD i none with
    | none =>
      rw [fillOneToOne_cons_none rows minVal invalid hr]
      exact ih table
    | some v =>
      by_cases hc : table.getD ((v - minVal).toNat) invalid = invalid
      · rw [fillOneToOne_cons_write rows minVal invalid table hr hc]
        exact ih _
      · rw [fillOneToOne_cons_dup rows minVal invalid table hr hc]
        exact Or.inr rfl

theorem fillOneToOne_append_err (rows : List (Option Int)) (minVal invalid : Int) :
    ∀ (p q : List Nat) (table : List Int),
      (fillOneToOne rows minVal invalid p table).1 ≠ 0 →
      fillOneToOne rows minVal invalid (p ++ q) table =
        fillOneToOne rows minVal invalid p table := by
  intro p
  induction p with
  | nil => intro q table h0; exact absurd rfl h0
  | cons i p ih =>
    intro q table h0
    rw [List.cons_append]
    cases hr : rows.getD i none with
    | none =>
      rw [fillOneToOne_cons_none rows minVal invalid hr p] at h0
      rw [fillOneToOne_cons_none rows minVal invalid hr (p ++ q),
        fillOneToOne_cons_none rows minVal invalid hr p]
      exact ih q table h0
    | some v =>
      by_cases hc : table.getD ((v - minVal).toNat) invalid = invalid
      · rw [fillOneToOne_cons_write rows minVal invalid table hr hc p] at h0
        rw [fillOneToOne_cons_write rows minVal invalid table hr hc (p ++ q),
          fillOneToOne_cons_write rows minVal invalid table hr hc p]
        exact ih q _ h0
      · rw [fillOneToOne_cons_dup rows minVal invalid table hr hc (p ++ q),
          fillOneToOne_cons_dup rows minVal invalid table hr hc p]

theorem fill_duplicate_err (rows : List (Option Int)) (minVal maxVal invalid : Int)
    (hrange : ∀ x ∈ rows, keyInRange minVal maxVal x = true)
    (hinv : invalid < 0)
    {i j : Nat} {v : Int} (hij : i < j)
    (hi : rows.getD i none = some v) (hj : rows.getD j none = some v) :
    (initHashTableOnCpu rows minVal (hashEntryCount minVal maxVal) invalid).1 =
      ERR_COLUMN_NOT_UNIQUE := by
  have hjn : j < rows.length := getD_lt_length_of_some hj
  have hin : i < rows.length := getD_lt_length_of_some hi
  have hsplit : List.range rows.length =
      List.range' 0 i ++ i :: List.range' (i + 1) (rows.length - i - 1) := by
    have h1 : List.range' 0 i ++ List.range' (0 + 1 * i) (rows.length - i) =
        List.range' 0 ((rows.length - i) + i) := List.range'_append 0 i (rows.length - i) 1
    have h2 : rows.length = (rows.length - i) + i := by omega
    rw [List.range_eq_range']
    rw [show List.range' 0 rows.length = List.range' 0 ((rows.length - i) + i) from by rw [← h2]]
    rw [← h1]
    simp only [Nat.zero_add, Nat.one_mul]
    have h3 : rows.length - i = (rows.length - i - 1) + 1 := by omega
    rw [h3, List.range'_succ, Nat.add_sub_cancel]
  rw [initHashTableOnCpu, hsplit]
  rcases fillOneToOne_fst rows minVal invalid (List.range' 0 i)
    (List.replicate (hashEntryCount minVal maxVal) invalid) with h0 | herr
  · rw [fillOneToOne_append_ok rows minVal invalid (List.range' 0 i)
      (i :: List.range' (i + 1) (rows.length - i - 1)) _ h0]
    have hkv := key_range_of_getD hrange hi
    have hbE : (v - minVal).toNat < hashEntryCount minVal maxVal :=
      bucket_lt_entry_count hkv.1 hkv.2
    have hT1len : ((fillOneToOne rows minVal invalid (List.range' 0 i)
        (List.replicate (hashEntryCount minVal maxVal) invalid)).2).length =
        hashEntryCount minVal maxVal := by
      rw [fillOneToOne_length, List.length_replicate]
    by_cases hc : ((fillOneToOne rows minVal invalid (List.range' 0 i)
        (List.replicate (hashEntryCount minVal maxVal) invalid)).2).getD
          ((v - minVal).toNat) invalid = invalid
    · rw [fillOneToOne_cons_write rows minVal invalid _ hi hc]
      apply fillOneToOne_hot_slot rows minVal invalid _ _ ((v - minVal).toNat)
      · rw [getD_set_self (by rw [hT1len]; exact hbE)]
        intro he
        have hnn : (0 : Int) ≤ Int.ofNat i := Int.ofNat_nonneg i
        omega
      · refine ⟨j, ?_, ?_⟩
        · rw [List.mem_range'_1]
          omega
        · rw [rowBucket, hj]
          rfl
    · rw [fillOneToOne_cons_dup rows minVal invalid _ hi hc]
  · rw [fillOneToOne_append_err rows minVal invalid (List.range' 0 i)
      (i :: List.range' (i + 1) (rows.length - i - 1)) _
      (by rw [herr]; decide)]
    exact herr

theorem rowBucket_eq_key {rows : List (Option Int)} {minVal maxVal : Int}
    (hrange : ∀ x ∈ rows, keyInRange minVal maxVal x = true)
    {k : Int} (hk1 : minVal ≤ k) (hk2 : k ≤ maxVal) (j : Nat) :
    rowBucket rows minVal j = some ((k - minVal).toNat) ↔ rows.getD j none = some k := by
  constructor
  · intro hb
    rw [rowBucket, Option.map_eq_some'] at hb
    obtain ⟨w, hw, hwb⟩ := hb
    have hwr := key_range_of_getD hrange hw
    have hwk : w = k := by omega
    rw [← hwk]
    exact hw
  · intro hw
    rw [rowBucket, hw]
    rfl

/-- Claim C2: a row set with at least one duplicate key makes the builder
abandon the One-to-One attempt and fall back to the One-to-Many discipline
(rather than reporting an error), and in the resulting table, for every key
`k` present, the count at `k`'s bucket equals the number of source rows with
key `k` and the payload slice `[offset, offset + count)` contains exactly the
row indices of the rows with key `k`, as a set with unconstrained order. -/
theorem c2_fallback_one_to_many (rows : List (Option Int)) (minVal maxVal invalid : Int)
    (hrange : ∀ x ∈ rows, keyInRange minVal maxVal x = true)
    (hinv : invalid < 0)
    (hdup : ∃ i j v, i < j ∧ rows.getD i none = some v ∧ rows.getD j none = some v) :
    ∃ t, reifyOnCpu rows minVal (hashEntryCount minVal maxVal) invalid =
        HashTablePayload.oneToMany t ∧
      ∀ k, (∃ i, rows.getD i none = some k) →
        t.counts ((k - minVal).toNat) =
          ((List.range rows.length).filter
            (fun j => decide (rows.getD j none = some k))).length ∧
        (∀ j, some j ∈ tableSlice t ((k - minVal).toNat) ↔
          rows.getD j none = some k) := by
  obtain ⟨i, j, v, hij, hi, hj⟩ := hdup
  have herr := fill_duplicate_err rows minVal maxVal invalid hrange hinv hij hi hj
  have hrw : reifyOnCpu rows minVal (hashEntryCount minVal maxVal) invalid =
      if needOneToManyHash
          [(initHashTableOnCpu rows minVal (hashEntryCount minVal maxVal) invalid).1] then
        HashTablePayload.oneToMany
          (initOneToManyHashTableOnCpu rows minVal (hashEntryCount minVal maxVal))
      else
        HashTablePayload.oneToOne
          (initHashTableOnCpu rows minVal (hashEntryCount minVal maxVal) invalid).2 := rfl
  have hB : ∀ i2 ∈ List.range rows.length, ∀ b, rowBucket rows minVal i2 = some b →
      b < hashEntryCount minVal maxVal := by
    intro i2 _ b hb
    rw [rowBucket, Option.map_eq_some'] at hb
    obtain ⟨w, hw, hwb⟩ := hb
    have hwr := key_range_of_getD hrange hw
    rw [← hwb]
    exact bucket_lt_entry_count hwr.1 hwr.2
  refine ⟨initOneToManyHashTableOnCpu rows minVal (hashEntryCount minVal maxVal), ?_, ?_⟩
  · rw [hrw, herr, if_pos (by decide)]
  · intro k hk
    obtain ⟨i0, hi0⟩ := hk
    have hkr := key_range_of_getD hrange hi0
    have hbk : (k - minVal).toNat < hashEntryCount minVal maxVal :=
      bucket_lt_entry_count hkr.1 hkr.2
    have hfilter : bucketMatches rows minVal ((k - minVal).toNat) (List.range rows.length) =
        (List.range rows.length).filter (fun j => decide (rows.getD j none = some k)) := by
      rw [bucketMatches]
      apply List.filter_congr
      intro x _
      rw [decide_eq_decide]
      exact rowBucket_eq_key hrange hkr.1 hkr.2 x
    constructor
    · rw [initOneToManyHashTableOnCpu, initOneToManyOrdered_counts, countsOf, hfilter]
    · intro j2
      rw [initOneToManyHashTableOnCpu,
        initOneToManyOrdered_slices rows minVal (hashEntryCount minVal maxVal)
          (List.range rows.length) hB ((k - minVal).toNat) hbk]
      constructor
      · intro hmem
        rw [List.mem_map] at hmem
        obtain ⟨x, hx, hxe⟩ := hmem
        injection hxe with hxe2
        subst hxe2
        rw [bucketMatches, List.mem_filter] at hx
        have hx2 := hx.2
        rw [decide_eq_true_eq] at hx2
        exact (rowBucket_eq_key hrange hkr.1 hkr.2 _).mp hx2
      · intro hw
        rw [List.mem_map]
        refine ⟨j2, ?_, rfl⟩
        rw [bucketMatches, List.mem_filter]
        refine ⟨List.mem_range.mpr (getD_lt_length_of_some hw), ?_⟩
        rw [decide_eq_true_eq]
        exact (rowBucket_eq_key hrange hkr.1 hkr.2 j2).mpr hw

/-- Claim C2 witness: the spec's concrete scenario — inner column
`[10, 12, 10, 11]` over range `[10, 12]` falls back to One-to-Many with the
counts and payload-set properties for every key present. -/
theorem c2_witness :
    ∃ t, reifyOnCpu sampleRows 10 (hashEntryCount 10 12) (-1) =
        HashTablePayload.oneToMany t ∧
      ∀ k, (∃ i, sampleRows.getD i none = some k) →
        t.counts ((k - 10).toNat) =
          ((List.range sampleRows.length).filter
            (fun j => decide (sampleRows.getD j none = some k))).length ∧
        (∀ j, some j ∈ tableSlice t ((k - 10).toNat) ↔
          sampleRows.getD j none = some k) :=
  c2_fallback_one_to_many sampleRows 10 12 (-1) (by decide) (by decide)
    ⟨0, 2, 10, by decide, rfl, rfl⟩

/-- Claim C7: with a validated integer range `[minVal, maxVal]`, the built
table has exactly `max − min + 1` buckets; a range with `max = min` produces a
one-bucket table; and an empty row set builds, without error, a correctly
sized fully-invalid One-to-One table, and its One-to-Many layout has all
counts zero and an empty payload. -/
theorem c7_bucket_count_boundaries (minVal maxVal : Int) (hle : minVal ≤ maxVal) :
    (maxVal = minVal → hashEntryCount minVal maxVal = 1) ∧
    (∀ (rows : List (Option Int)) (invalid : Int),
      ((initHashTableOnCpu rows minVal (hashEntryCount minVal maxVal) invalid).2).length =
        hashEntryCount minVal maxVal) ∧
    (∀ invalid : Int, reifyOnCpu [] minVal (hashEntryCount minVal maxVal) invalid =
      HashTablePayload.oneToOne (List.replicate (hashEntryCount minVal maxVal) invalid)) ∧
    (∀ b, (initOneToManyHashTableOnCpu [] minVal (hashEntryCount minVal maxVal)).counts b = 0) ∧
    (initOneToManyHashTableOnCpu [] minVal (hashEntryCount minVal maxVal)).payload = [] := by
  refine ⟨?_, ?_, ?_, ?_, ?_⟩
  · intro h
    rw [hashEntryCount]
    omega
  · intro rows invalid
    rw [initHashTableOnCpu, fillOneToOne_length, List.length_replicate]
  · intro invalid
    rfl
  · intro b
    rfl
  · rfl

/-- Claim C7 witness: the single-key range `[5, 5]` produces a one-bucket
table and the empty row set builds cleanly. -/
theorem c7_witness :
    ((5 : Int) = 5 → hashEntryCount 5 5 = 1) ∧
    (∀ (rows : List (Option Int)) (invalid : Int),
      ((initHashTableOnCpu rows 5 (hashEntryCount 5 5) invalid).2).length =
        hashEntryCount 5 5) ∧
    (∀ invalid : Int, reifyOnCpu [] 5 (hashEntryCount 5 5) invalid =
      HashTablePayload.oneToOne (List.replicate (hashEntryCount 5 5) invalid)) ∧
    (∀ b, (initOneToManyHashTableOnCpu [] 5 (hashEntryCount 5 5)).counts b = 0) ∧
    (initOneToManyHashTableOnCpu [] 5 (hashEntryCount 5 5)).payload = [] :=
  c7_bucket_count_boundaries 5 5 (by decide)

/-- Claim C8: two runs of the One-to-Many builder over the same column
snapshot and range, modelled as two processing orders of the same row set,
produce the same bucket layout — identical per-bucket counts and offsets —
and payload slices that are permutations of each other (only the ordering of
same-key row indices inside a slice may differ). -/
theorem c8_layout_deterministic (rows : List (Option Int)) (minVal maxVal : Int)
    (hrange : ∀ x ∈ rows, keyInRange minVal maxVal x = true)
    (o1 o2 : List Nat)
    (h1 : o1.Perm (List.range rows.length)) (h2 : o2.Perm (List.range rows.length)) :
    (∀ b, (initOneToManyOrdered rows minVal (hashEntryCount minVal maxVal) o1).counts b =
      (initOneToManyOrdered rows minVal (hashEntryCount minVal maxVal) o2).counts b) ∧
    (∀ b, (initOneToManyOrdered rows minVal (hashEntryCount minVal maxVal) o1).offsets b =
      (initOneToManyOrdered rows minVal (hashEntryCount minVal maxVal) o2).offsets b) ∧
    (∀ b, b < hashEntryCount minVal maxVal →
      (tableSlice (initOneToManyOrdered rows minVal (hashEntryCount minVal maxVal) o1) b).Perm
        (tableSlice (initOneToManyOrdered rows minVal (hashEntryCount minVal maxVal) o2) b)) := by
  have hperm : o1.Perm o2 := h1.trans h2.symm
  have hc : ∀ b, countsOf rows minVal o1 b = countsOf rows minVal o2 b := by
    intro b
    exact (hperm.filter _).length_eq
  have hBgen : ∀ (o : List Nat), ∀ i ∈ o, ∀ b, rowBucket rows minVal i = some b →
      b < hashEntryCount minVal maxVal := by
    intro o i hi b hb
    rw [rowBucket, Option.map_eq_some'] at hb
    obtain ⟨w, hw, hwb⟩ := hb
    have hwr := key_range_of_getD hrange hw
    rw [← hwb]
    exact bucket_lt_entry_count hwr.1 hwr.2
  refine ⟨?_, ?_, ?_⟩
  · intro b
    rw [initOneToManyOrdered_counts, initOneToManyOrdered_counts, hc b]
  · intro b
    rw [initOneToManyOrdered_offsets, initOneToManyOrdered_offsets]
    exact offsetsOf_congr (fun x _ => hc x)
  · intro b hbB
    rw [initOneToManyOrdered_slices rows minVal (hashEntryCount minVal maxVal) o1
        (hBgen o1) b hbB,
      initOneToManyOrdered_slices rows minVal (hashEntryCount minVal maxVal) o2
        (hBgen o2) b hbB]
    exact (hperm.filter _).map some

/-- Claim C8 witness: the natural order and the reversed order over the
spec's scenario rows produce identical counts and offsets and
permutation-equivalent slices. -/
theorem c8_witness :
    (∀ b, (initOneToManyOrdered sampleRows 10 (hashEntryCount 10 12) [0, 1, 2, 3]).counts b =
      (initOneToManyOrdered sampleRows 10 (hashEntryCount 10 12) [3, 2, 1, 0]).counts b) ∧
    (∀ b, (initOneToManyOrdered sampleRows 10 (hashEntryCount 10 12) [0, 1, 2, 3]).offsets b =
      (initOneToManyOrdered sampleRows 10 (hashEntryCount 10 12) [3, 2, 1, 0]).offsets b) ∧
    (∀ b, b < hashEntryCount 10 12 →
      (tableSlice (initOneToManyOrdered sampleRows 10 (hashEntryCount 10 12) [0, 1, 2, 3]) b).Perm
        (tableSlice (initOneToManyOrdered sampleRows 10 (hashEntryCount 10 12) [3, 2, 1, 0]) b)) :=
  c8_layout_deterministic sampleRows 10 12 (by decide) [0, 1, 2, 3] [3, 2, 1, 0]
    (by decide) (by decide)
